import Mathlib

/-!
Verification of the bun-mcp documentation server core
(document store, content cache, pagination engine, section locator,
and loaders) against its natural-language specification.

The TypeScript sources are shallowly embedded:
* JS strings are modelled as `List Char`; `String.prototype.split("\n")`
  is `splitNl`, `Array.prototype.join("\n")` is `joinNl`.
* JS numbers that flow through the tool parameters are modelled as `ℚ`
  (requests may be fractional, negative, or huge); values the code keeps
  integral are `ℤ`.  `Array.prototype.slice` converts its arguments with
  ToIntegerOrInfinity (truncation toward zero), modelled by `ratTrunc`.
* `Effect.fail` (typed error channel) and thrown JS exceptions that the
  Effect runtime records as defects are the two constructors of
  `ToolError`.
* optional / absent JS values are `Option`.
-/

set_option maxRecDepth 4000

/-- JS `value.split("\n")`: split a character list at every newline.
`splitNl [] = [[]]`, mirroring `"".split("\n") = [""]`. -/
def splitNl : List Char → List (List Char)
  | [] => [[]]
  | c :: cs =>
    match splitNl cs with
    | [] => [[]]
    | h :: t => if c = '\n' then [] :: h :: t else (c :: h) :: t

/-- JS `lines.join("\n")`. -/
def joinNl : List (List Char) → List Char
  | [] => []
  | [l] => l
  | l :: ls => l ++ '\n' :: joinNl ls

/-- JS `String.prototype.trim()` (whitespace stripped from both ends). -/
def trimText (s : List Char) : List Char :=
  ((s.dropWhile Char.isWhitespace).reverse.dropWhile Char.isWhitespace).reverse

/-- JS `a || b` on strings: the empty string is falsy. -/
def jsOrL (a b : List Char) : List Char :=
  if a = [] then b else a

/-- Is `pre` a leading segment of `l`?  (Helper for JS `String.prototype.includes`.) -/
def hasPfx : List Char → List Char → Bool
  | [], _ => true
  | _ :: _, [] => false
  | a :: as, b :: bs => a == b && hasPfx as bs

/-- JS `hay.includes(needle)`: substring containment. -/
def hasSub (needle : List Char) : List Char → Bool
  | [] => needle.isEmpty
  | c :: t => hasPfx needle (c :: t) || hasSub needle t

/-- JS ToIntegerOrInfinity on a finite number: truncation toward zero. -/
def ratTrunc (q : ℚ) : ℤ :=
  if 0 ≤ q then ⌊q⌋ else ⌈q⌉

/-- JS `Array.prototype.slice(s, e)` for integer arguments. -/
def jsSliceI (l : List α) (s e : ℤ) : List α :=
  let len : ℤ := l.length
  let k := if s < 0 then max (len + s) 0 else min s len
  let f := if e < 0 then max (len + e) 0 else min e len
  (l.drop k.toNat).take (f - k).toNat

/-- JS `Array.prototype.slice(s, e)` for arbitrary (finite) numeric arguments. -/
def jsSlice (l : List α) (s e : ℚ) : List α :=
  jsSliceI l (ratTrunc s) (ratTrunc e)

/-- A heading as declared by the `DocumentEntry` interface in
`copy-package-json.ts` (the BunDocs toolkit): `{depth, text, line}` with a
mandatory 1-based `line`. -/
structure Heading where
  depth : ℤ
  text : List Char
  line : ℤ
deriving DecidableEq, Repr

/-- A heading object as actually constructed by `Markdown.ts`
(`headings.push({depth: node.depth!, text})`): the JS object literal has
no `line` property, so reading `.line` yields `undefined`, modelled as
`none`. -/
structure MdHeading where
  depth : ℤ
  text : List Char
  line : Option ℤ
deriving DecidableEq, Repr

/-- The slice of the remark AST that `Markdown.ts` consumes: the root
children, where a heading node carries a depth and children, and text
nodes carry their value.  (remark parsing itself is the external
markdown collaborator.) -/
inductive MdNode where
  | heading (depth : ℤ) (children : List MdNode)
  | text (value : List Char)
  | other (children : List MdNode)

/-- Embeds `node.children.flatMap((n) => n.type === "text" ? [n.value] : []).join("")`
from `Markdown.ts`. -/
def headingText (children : List MdNode) : List Char :=
  (children.map fun n =>
    match n with
    | MdNode.text v => v
    | _ => []).flatten

/-- The heading-extraction loop of `Markdown.make` (`Markdown.ts` lines
21-36): for each root child of type heading, push `{depth, text}` — and
nothing else; in particular no `line` property is ever written. -/
def extractHeadings (children : List MdNode) : List MdHeading :=
  children.filterMap fun node =>
    match node with
    | MdNode.heading d cs => some { depth := d, text := headingText cs, line := none }
    | _ => none

/-- One entry of the in-memory doc store (`copy-package-json.ts` lines
157-164).  `content` is stored eagerly because every `addDoc` call site
passes `Effect.succeed(file.content)`. -/
structure DocumentEntry where
  id : ℕ
  title : List Char
  description : Option (List Char)
  preview : List Char
  headings : List Heading
  content : List Char
deriving DecidableEq, Repr

/-- Embeds `addDoc` (`copy-package-json.ts` lines 182-193): assign `id :=
docs.length` and append. -/
def addDoc (docs : List DocumentEntry) (title : List Char)
    (description : Option (List Char)) (preview : List Char)
    (headings : List Heading) (content : List Char) : List DocumentEntry :=
  docs ++ [{ id := docs.length, title := title, description := description,
             preview := preview, headings := headings, content := content }]

/-- JS array indexing `docs[id]`: out-of-range or negative gives
`undefined` (`none`). -/
def docsLookup (docs : List DocumentEntry) (id : ℤ) : Option DocumentEntry :=
  if 0 ≤ id then docs[id.toNat]? else none

/-- A tool-level failure: either a typed error on the Effect error
channel (`Effect.fail`) or a defect — a thrown JS exception the runtime
records as a die, which is not a typed failure. -/
inductive ToolError where
  | defect (msg : String)
  | failure (msg : String)
deriving DecidableEq, Repr

/-- Propositional equality on tool results is decidable (used to
evaluate the embedded handlers on concrete inputs). -/
instance {ε α : Type} [DecidableEq ε] [DecidableEq α] : DecidableEq (Except ε α) := fun x y =>
  match x, y with
  | Except.ok a, Except.ok b =>
    if h : a = b then isTrue (by rw [h]) else isFalse (by intro hc; cases hc; exact h rfl)
  | Except.error a, Except.error b =>
    if h : a = b then isTrue (by rw [h]) else isFalse (by intro hc; cases hc; exact h rfl)
  | Except.ok _, Except.error _ => isFalse (by intro hc; cases hc)
  | Except.error _, Except.ok _ => isFalse (by intro hc; cases hc)

/-- The content cache lookup (`copy-package-json.ts` lines 261-266):
`docs[id].content.pipe(Effect.map((content) => content.split("\n")))`.
For an unknown id, `docs[id]` is `undefined` and reading `.content`
throws a TypeError, which surfaces as a defect, not a typed failure. -/
def cacheLookup (docs : List DocumentEntry) (id : ℤ) :
    Except ToolError (List (List Char)) :=
  match docsLookup docs id with
  | none => Except.error (ToolError.defect "TypeError: cannot read content of undefined")
  | some d => Except.ok (splitNl d.content)

/-- Embeds `clampPageSize` (`copy-package-json.ts` lines 270-271):
`Math.min(Math.max(Math.floor(pageSize ?? 200), 1), 500)`. -/
def clampPageSize (pageSize : Option ℚ) : ℤ :=
  min (max ⌊pageSize.getD 200⌋ 1) 500

/-- The effective page size exactly as the spec words it: "floor(pageSize)
clamped to the inclusive range [1, 500]", defaulting to 200 when absent. -/
def effectiveSizeSpec (pageSize : Option ℚ) : ℤ :=
  max (min ⌊pageSize.getD 200⌋ 500) 1

/-- Result of `get_bun_doc` / `get_effect_doc`. -/
structure PagePayload where
  content : List Char
  page : ℚ
  totalPages : ℚ
deriving DecidableEq, Repr

/-- The pagination arithmetic of `get_bun_doc` (`copy-package-json.ts`
lines 330-366), applied to the cached line sequence.  An absent `page`
defaults to 1 (JS default parameter). -/
def bunPaginate (lines : List (List Char)) (page : Option ℚ)
    (pageSize : Option ℚ) : PagePayload :=
  let size := clampPageSize pageSize
  let pages : ℤ := max 1 ⌈(lines.length : ℚ) / (size : ℚ)⌉
  let currentPage : ℚ := min (max (page.getD 1) 1) (pages : ℚ)
  let offset : ℚ := (currentPage - 1) * (size : ℚ)
  { content := joinNl (jsSlice lines offset (offset + (size : ℚ)))
    page := currentPage
    totalPages := (pages : ℚ) }

/-- The pagination arithmetic of `get_effect_doc` (`ReferenceDocs.ts`
lines 283-298); the size clamp is written inline there:
`Math.min(Math.max(Math.floor(pageSize ?? 200), 1), 500)`. -/
def effectPaginate (lines : List (List Char)) (page : Option ℚ)
    (pageSize : Option ℚ) : PagePayload :=
  let size : ℤ := min (max ⌊pageSize.getD 200⌋ 1) 500
  let pages : ℤ := max 1 ⌈(lines.length : ℚ) / (size : ℚ)⌉
  let currentPage : ℚ := min (max (page.getD 1) 1) (pages : ℚ)
  let offset : ℚ := (currentPage - 1) * (size : ℚ)
  { content := joinNl (jsSlice lines offset (offset + (size : ℚ)))
    page := currentPage
    totalPages := (pages : ℚ) }

/-- The full `get_bun_doc` handler: cache lookup (which defects on an
unknown id) followed by pagination. -/
def getBunDocF (docs : List DocumentEntry) (id : ℤ) (page : Option ℚ)
    (pageSize : Option ℚ) : Except ToolError PagePayload :=
  match cacheLookup docs id with
  | Except.error e => Except.error e
  | Except.ok lines => Except.ok (bunPaginate lines page pageSize)

/-- Result of `get_bun_doc_pages`. -/
structure PagesPayload where
  content : List Char
  startPage : ℚ
  endPage : ℚ
  totalPages : ℚ
deriving DecidableEq, Repr

/-- The ranged pagination arithmetic of `get_bun_doc_pages`
(`copy-package-json.ts` lines 400-412). -/
def pagesCore (lines : List (List Char)) (startPage : ℚ)
    (endPage : Option ℚ) (pageSize : Option ℚ) : PagesPayload :=
  let size := clampPageSize pageSize
  let pages : ℤ := max 1 ⌈(lines.length : ℚ) / (size : ℚ)⌉
  let s : ℚ := min (max startPage 1) (pages : ℚ)
  let e : ℚ := min (max (endPage.getD startPage) s) (pages : ℚ)
  let startOffset : ℚ := (s - 1) * (size : ℚ)
  let endOffset : ℚ := e * (size : ℚ)
  { content := joinNl (jsSlice lines startOffset endOffset)
    startPage := s
    endPage := e
    totalPages := (pages : ℚ) }

/-- The full `get_bun_doc_pages` handler: the cache lookup defects on an
unknown id (`copy-package-json.ts` line 400 has no preceding doc check). -/
def getBunDocPagesF (docs : List DocumentEntry) (id : ℤ) (startPage : ℚ)
    (endPage : Option ℚ) (pageSize : Option ℚ) : Except ToolError PagesPayload :=
  match cacheLookup docs id with
  | Except.error e => Except.error e
  | Except.ok lines => Except.ok (pagesCore lines startPage endPage pageSize)

/-- The punctuation class of the `norm` regex in `findSectionRange`:
`/[`*_~\[\]();:.,!?"'<>#]/g`.  (Backtick and single quote are
written by code point.) -/
def punctChars : List Char :=
  [Char.ofNat 96, '*', '_', '~', '[', ']', '(', ')', ';', ':', '.', ',',
   '!', '?', '"', Char.ofNat 39, '<', '>', '#']

/-- Embeds `norm` from `findSectionRange`:
`s.toLowerCase().replace(/[...]/g, "").trim()`. -/
def normText (s : List Char) : List Char :=
  trimText ((s.map Char.toLower).filter fun c => !(punctChars.contains c))

/-- The heading filter of `findSectionRange`: `depth ? hs.filter((h) =>
h.depth === depth) : hs`.  JS truthiness: a supplied depth of 0 is falsy
and disables the filter. -/
def eligible (hs : List Heading) (depth : Option ℤ) : List Heading :=
  match depth with
  | none => hs
  | some d => if d = 0 then hs else hs.filter fun h => h.depth == d

/-- The eligible-heading set as the spec words it: "only headings at that
exact depth are eligible" whenever a depth is supplied. -/
def eligibleSpec (hs : List Heading) (depth : Option ℤ) : List Heading :=
  match depth with
  | none => hs
  | some d => hs.filter fun h => h.depth == d

/-- Embeds `findSectionRange` (`copy-package-json.ts` lines 273-295).  The JS
`Infinity` sentinel for "no later boundary heading" is modelled as
`none` in the returned end line.  The `for` loop from `origIdx + 1` is
the first match in `hs.drop (origIdx + 1)`. -/
def findSectionRange (hs : List Heading) (query : List Char)
    (depth : Option ℤ) : Option (ℤ × Option ℤ) :=
  let q := normText query
  let filtered := eligible hs depth
  match filtered.find? (fun h => hasSub q (normText h.text)) with
  | none => none
  | some m =>
    let origIdx := hs.findIdx fun h => h.line == m.line
    let endLine : Option ℤ :=
      match (hs.drop (origIdx + 1)).find? (fun h => decide (h.depth ≤ m.depth)) with
      | some nx => some (nx.line - 1)
      | none => none
    some (m.line, endLine)

/-- The claim-side end bound: the line immediately before the first
heading after position `i` (in full, unfiltered document order) whose
depth is at most the depth of the matched heading; `none` when no such
heading exists. -/
def endSpec (hs : List Heading) (i : ℕ) (m : Heading) : Option ℤ :=
  match (hs.drop (i + 1)).find? (fun h => decide (h.depth ≤ m.depth)) with
  | some nx => some (nx.line - 1)
  | none => none

/-- Line 459 of `copy-package-json.ts`:
`Math.min(lines.length, match.endLine === Infinity ? lines.length : match.endLine)`. -/
def sectionToLine (lines : List (List Char)) (e : Option ℤ) : ℤ :=
  min (lines.length : ℤ)
    (match e with
     | none => (lines.length : ℤ)
     | some v => v)

/-- Result of `get_bun_doc_section`. -/
structure SectionPayload where
  content : List Char
  fromLine : ℤ
  toLine : ℤ
  pageStart : ℤ
  pageEnd : ℤ
  totalPages : ℤ
deriving DecidableEq, Repr

/-- Lines 458-472 of `copy-package-json.ts`: bound clamping, content
slice and page mapping of `get_bun_doc_section`, given the located
section `(s, e)`. -/
def sectionCore (lines : List (List Char)) (s : ℤ) (e : Option ℤ)
    (pageSize : Option ℚ) : SectionPayload :=
  let size := clampPageSize pageSize
  let fromLine := max 1 s
  let toLine := sectionToLine lines e
  let pages : ℤ := max 1 ⌈(lines.length : ℚ) / (size : ℚ)⌉
  let pageStart := min (max ⌈(fromLine : ℚ) / (size : ℚ)⌉ 1) pages
  let pageEnd := min (max ⌈(toLine : ℚ) / (size : ℚ)⌉ pageStart) pages
  { content := joinNl (jsSliceI lines (fromLine - 1) toLine)
    fromLine := fromLine
    toLine := toLine
    pageStart := pageStart
    pageEnd := pageEnd
    totalPages := pages }

/-- The full `get_bun_doc_section` handler (`copy-package-json.ts` lines
428-487): it checks `docs[documentId]` first and fails typed
("Document not found"), then locates the section, failing typed
("Section not found") when the locator yields no match. -/
def getBunDocSectionF (docs : List DocumentEntry) (id : ℤ)
    (heading : List Char) (depth : Option ℤ) (pageSize : Option ℚ) :
    Except ToolError SectionPayload :=
  match docsLookup docs id with
  | none => Except.error (ToolError.failure "Document not found")
  | some doc =>
    let lines := splitNl doc.content
    match findSectionRange doc.headings heading depth with
    | none => Except.error (ToolError.failure "Section not found")
    | some (s, e) => Except.ok (sectionCore lines s e pageSize)

/-- Embeds `makePreview` (`copy-package-json.ts` lines 195-202): fold the lines,
skipping blank ones, joining with single spaces, truncating at 400
characters. -/
def makePreview (value : List Char) : List Char :=
  (splitNl value).foldl
    (fun acc line =>
      if 400 ≤ acc.length then acc
      else
        let trimmed := trimText line
        if trimmed = [] then acc
        else (if acc = [] then trimmed else acc ++ ' ' :: trimmed).take 400)
    []

/-- The output of the markdown collaborator as the spec contracts it
(`{title, description, headings, content}` with line-bearing headings).
The actual `Markdown.ts` omits `line` — see `extractHeadings`. -/
structure MdFile where
  title : List Char
  description : Option (List Char)
  headings : List Heading
  content : List Char

/-- One iteration of the Bun `loadDocs` loop (`copy-package-json.ts`
lines 226-249): fetch `loc + ".md"` (the oracle `fetch` is the
already-retried HTTP client; `none` is failure after retries, caught by
`Effect.catch(() => Effect.succeed(null))`).  On failure (`raw == null`)
the document is skipped — no log, no fallback entry.  On success the
fields from the markdown collaborator populate `addDoc`. -/
def bunLoadStep (basename : List Char → List Char) (md : List Char → MdFile)
    (fetch : List Char → Option (List Char)) (docs : List DocumentEntry)
    (loc : List Char) : List DocumentEntry :=
  match fetch (loc ++ ".md".data) with
  | none => docs
  | some raw =>
    let file := md raw
    let titleFromPath := basename loc
    addDoc docs (jsOrL file.title titleFromPath) file.description
      (jsOrL (makePreview file.content)
        (jsOrL (file.description.getD []) titleFromPath))
      file.headings file.content

/-- The Bun loader over a list of discovered locations, from a given
store state.  (Bounded concurrency only permutes completion order; the
per-item effect on the store is as folded here.) -/
def loadBunDocsFrom (basename : List Char → List Char) (md : List Char → MdFile)
    (fetch : List Char → Option (List Char)) (docs : List DocumentEntry)
    (urls : List (List Char)) : List DocumentEntry :=
  urls.foldl (bunLoadStep basename md fetch) docs

/-- The Bun loader from an empty store. -/
def loadBunDocs (basename : List Char → List Char) (md : List Char → MdFile)
    (fetch : List Char → Option (List Char)) (urls : List (List Char)) :
    List DocumentEntry :=
  loadBunDocsFrom basename md fetch [] urls

/-- Embeds `fallbackBody` (`ReferenceDocs.ts` lines 112-115). -/
def fallbackBody (kind name : List Char) : List Char :=
  "# ".data ++ name ++
    "\n\nThis ".data ++ kind ++
    " could not be loaded right now. Please try again later.".data

/-- Embeds `fetchText` (`ReferenceDocs.ts` lines 130-141): on failure after
retries, log and substitute the fallback placeholder body. -/
def fetchText (fetch : List Char → Option (List Char)) (url kind name : List Char) :
    List Char :=
  match fetch url with
  | some t => t
  | none => fallbackBody kind name

/-- A static guide/readme entry from `Readmes.ts` as consumed by
`addStaticDocs`. -/
structure StaticItem where
  url : List Char
  name : List Char
  title : List Char
  description : List Char

/-- The body of the `Effect.forEach` in `addStaticDocs`
(`ReferenceDocs.ts` lines 146-159): fetch (with fallback on failure) and
register; the Effect corpus entries have no heading outline. -/
def staticStep (fetch : List Char → Option (List Char)) (kind : List Char)
    (docs : List DocumentEntry) (entry : StaticItem) : List DocumentEntry :=
  let body := fetchText fetch entry.url kind entry.name
  addDoc docs entry.title (some entry.description)
    (jsOrL (makePreview body) entry.description) [] body

/-- Embeds `addStaticDocs` (`ReferenceDocs.ts` lines 143-161): every item is
registered in order. -/
def addStaticDocs (fetch : List Char → Option (List Char)) (kind : List Char)
    (items : List StaticItem) : List DocumentEntry :=
  items.foldl (staticStep fetch kind) []

/-- A fetch oracle that always fails (even after the retry schedule). -/
def fetchNone : List Char → Option (List Char) := fun _ => none

/-- A trivial markdown-collaborator oracle for concrete counterexamples. -/
def mdTrivial : List Char → MdFile := fun raw =>
  { title := [], description := none, headings := [], content := raw }

/-- A trivial basename oracle for concrete counterexamples. -/
def basenameId : List Char → List Char := fun l => l

/-- The heading outline of the section-locator example in the spec:
`[{depth:1,"Main",line:1},{depth:2,"Intro",line:2},{depth:2,"Features",line:10}]`. -/
def exOutline : List Heading :=
  [⟨1, "Main".data, 1⟩, ⟨2, "Intro".data, 2⟩, ⟨2, "Features".data, 10⟩]

/-- A one-document store whose single entry has a heading, used to probe
the "no matching section" path. -/
def c2Docs : List DocumentEntry :=
  addDoc [] "Main doc".data none [] [⟨1, "Main".data, 1⟩] "x".data

/-- A store with a 3-line document whose (line-bearing) outline claims a
heading at line 5, past the end of the document. -/
def c5Docs : List DocumentEntry :=
  addDoc [] "t".data none [] [⟨1, "Main".data, 5⟩] "a\nb\nc".data

/-- Total pages as the spec words it (same formula as the code). -/
def pagesTotalSpec (lines : List (List Char)) (ps : Option ℚ) : ℤ :=
  max 1 ⌈(lines.length : ℚ) / (clampPageSize ps : ℚ)⌉

/-- The claim-side start page: `startPage` clamped into `[1, totalPages]`. -/
def startPageSpec (lines : List (List Char)) (sp : ℤ) (ps : Option ℚ) : ℤ :=
  min (max sp 1) (pagesTotalSpec lines ps)

/-- The claim-side end page: `endPage` (defaulting to the requested
`startPage`) independently clamped into `[1, totalPages]`, then raised
to be at least the clamped start page. -/
def endPageSpec (lines : List (List Char)) (sp : ℤ) (ep : Option ℤ)
    (ps : Option ℚ) : ℤ :=
  max (min (max (ep.getD sp) 1) (pagesTotalSpec lines ps))
    (startPageSpec lines sp ps)

/-! ## Helper lemmas -/

theorem splitNl_ne_nil (s : List Char) : splitNl s ≠ [] := by
  cases s with
  | nil => simp [splitNl]
  | cons c cs =>
    rcases hh : splitNl cs with _ | ⟨h, t⟩
    · simp [splitNl, hh]
    · simp only [splitNl, hh]
      split <;> simp

theorem one_le_length_splitNl (s : List Char) : 1 ≤ (splitNl s).length := by
  rcases h : splitNl s with _ | ⟨a, t⟩
  · exact absurd h (splitNl_ne_nil s)
  · simp

theorem joinNl_cons_cons (c : Char) (h : List Char) (t : List (List Char)) :
    joinNl ((c :: h) :: t) = c :: joinNl (h :: t) := by
  cases t <;> simp [joinNl]

theorem joinNl_splitNl (s : List Char) : joinNl (splitNl s) = s := by
  induction s with
  | nil => rfl
  | cons c cs ih =>
    rcases hh : splitNl cs with _ | ⟨h, t⟩
    · exact absurd hh (splitNl_ne_nil cs)
    · rw [hh] at ih
      by_cases hc : c = '\n'
      · subst hc
        simp [splitNl, hh, joinNl, ih]
      · simp [splitNl, hh, hc, joinNl_cons_cons, ih]

theorem ratTrunc_intCast (z : ℤ) : ratTrunc ((z : ℚ)) = z := by
  unfold ratTrunc
  split <;> simp

theorem jsSliceI_of_nonneg (l : List α) (a b : ℤ) (ha : 0 ≤ a) (hb : 0 ≤ b) :
    jsSliceI l a b = (l.drop a.toNat).take (b.toNat - a.toNat) := by
  simp only [jsSliceI]
  rw [if_neg (by omega), if_neg (by omega)]
  rcases le_or_lt a (l.length : ℤ) with hal | hal
  · rw [min_eq_left hal]
    rcases le_or_lt b (l.length : ℤ) with hbl | hbl
    · rw [min_eq_left hbl]
      congr 1
      omega
    · rw [min_eq_right hbl.le]
      rw [List.take_of_length_le, List.take_of_length_le]
      · rw [List.length_drop]; omega
      · rw [List.length_drop]; omega
  · rw [min_eq_right hal.le]
    have e1 : l.drop ((l.length : ℤ)).toNat = [] := by simp
    have e2 : l.drop a.toNat = [] := List.drop_eq_nil_of_le (by omega)
    rw [e1, e2]
    simp

theorem jsSliceI_zero_full (l : List α) (b : ℤ) (hb : (l.length : ℤ) ≤ b) :
    jsSliceI l 0 b = l := by
  rw [jsSliceI_of_nonneg l 0 b le_rfl (by omega)]
  simp only [Int.toNat_zero, List.drop_zero, Nat.sub_zero]
  exact List.take_of_length_le (by omega)

theorem intCast_min (a b : ℤ) : ((min a b : ℤ) : ℚ) = min (a : ℚ) (b : ℚ) := by
  rcases le_total a b with h | h
  · rw [min_eq_left h, min_eq_left (by exact_mod_cast h)]
  · rw [min_eq_right h, min_eq_right (by exact_mod_cast h)]

theorem intCast_max (a b : ℤ) : ((max a b : ℤ) : ℚ) = max (a : ℚ) (b : ℚ) := by
  rcases le_total a b with h | h
  · rw [max_eq_right h, max_eq_right (by exact_mod_cast h)]
  · rw [max_eq_left h, max_eq_left (by exact_mod_cast h)]

theorem one_le_clampPageSize (ps : Option ℚ) : 1 ≤ clampPageSize ps := by
  unfold clampPageSize
  exact le_min (le_max_right _ _) (by norm_num)

theorem clampPageSize_le_500 (ps : Option ℚ) : clampPageSize ps ≤ 500 :=
  min_le_right _ _

theorem clampPageSize_eq_spec (ps : Option ℚ) :
    clampPageSize ps = effectiveSizeSpec ps := by
  unfold clampPageSize effectiveSizeSpec
  omega

theorem bunPaginate_bounds (lines : List (List Char)) (page pageSize : Option ℚ) :
    (bunPaginate lines page pageSize).totalPages =
        ((max 1 ⌈(lines.length : ℚ) / (effectiveSizeSpec pageSize : ℚ)⌉ : ℤ) : ℚ) ∧
      1 ≤ (bunPaginate lines page pageSize).totalPages ∧
      1 ≤ (bunPaginate lines page pageSize).page ∧
      (bunPaginate lines page pageSize).page ≤ (bunPaginate lines page pageSize).totalPages := by
  simp only [bunPaginate]
  refine ⟨by rw [clampPageSize_eq_spec], ?_, ?_, ?_⟩
  · exact_mod_cast le_max_left (1 : ℤ) ⌈(lines.length : ℚ) / (clampPageSize pageSize : ℚ)⌉
  · refine le_min (le_max_right _ _) ?_
    exact_mod_cast le_max_left (1 : ℤ) ⌈(lines.length : ℚ) / (clampPageSize pageSize : ℚ)⌉
  · exact min_le_right _ _

theorem effectPaginate_eq_bunPaginate :
    ∀ (lines : List (List Char)) (page pageSize : Option ℚ),
      effectPaginate lines page pageSize = bunPaginate lines page pageSize :=
  fun _ _ _ => rfl

/-! ## Claim theorems -/

/-- C1: the spec requires every heading handed to `addDoc` to carry a
1-based `line` number aligned with the cached line sequence.  The
heading objects that `Markdown.make` actually extracts and that
`loadDocs` hands to `addDoc` never carry a `line` property at all:
every output of `extractHeadings` has `line = none`, exhibited
concretely on the AST of `"# Main"`. -/
theorem c1_markdown_headings_lack_line :
    (∀ cs : List MdNode, ((extractHeadings cs).all fun h => h.line.isNone) = true) ∧
    extractHeadings [MdNode.heading 1 [MdNode.text "Main".data]] =
      [{ depth := 1, text := "Main".data, line := none }] := by
  constructor
  · intro cs
    rw [List.all_eq_true]
    intro h hmem
    simp only [extractHeadings, List.mem_filterMap] at hmem
    obtain ⟨node, _, hnode⟩ := hmem
    cases node with
    | heading d children =>
      simp only [Option.some.injEq] at hnode
      rw [← hnode]
      rfl
    | text v => simp at hnode
    | other children => simp at hnode
  · rfl

/-- C2: the spec demands a typed `NotFound` failure from all three
content tools on an unknown `documentId`.  Only `get_bun_doc_section`
checks the store and fails typed; `get_bun_doc` and `get_bun_doc_pages`
reach the cache lookup, where `docs[id].content` throws a `TypeError`
that surfaces as a defect — a crash, not a typed failure.  The heading
miss in `get_bun_doc_section` does fail typed, as claimed. -/
theorem c2_unknown_document_behaviour :
    getBunDocF [] 0 none none =
        Except.error (ToolError.defect "TypeError: cannot read content of undefined") ∧
    getBunDocPagesF [] 0 1 none none =
        Except.error (ToolError.defect "TypeError: cannot read content of undefined") ∧
    getBunDocSectionF [] 0 "main".data none none =
        Except.error (ToolError.failure "Document not found") ∧
    getBunDocSectionF c2Docs 0 "zzz".data none none =
        Except.error (ToolError.failure "Section not found") := by
  exact ⟨rfl, rfl, rfl, rfl⟩

/-- C3: for every cached line sequence and every requested page and
pageSize (absent, negative, zero, non-integer or huge), `get_bun_doc`
and `get_effect_doc` report `totalPages = max 1 ⌈totalLines /
effectiveSize⌉ ≥ 1` — the effective size being `⌊pageSize⌋` clamped into
`[1, 500]`, defaulting to 200 — and a returned page with `1 ≤ page ≤
totalPages`. -/
theorem c3_pagination_totalPages_and_page_bounds :
    ∀ (lines : List (List Char)) (page pageSize : Option ℚ),
      ((bunPaginate lines page pageSize).totalPages =
          ((max 1 ⌈(lines.length : ℚ) / (effectiveSizeSpec pageSize : ℚ)⌉ : ℤ) : ℚ) ∧
        1 ≤ (bunPaginate lines page pageSize).totalPages ∧
        1 ≤ (bunPaginate lines page pageSize).page ∧
        (bunPaginate lines page pageSize).page ≤
          (bunPaginate lines page pageSize).totalPages) ∧
      ((effectPaginate lines page pageSize).totalPages =
          ((max 1 ⌈(lines.length : ℚ) / (effectiveSizeSpec pageSize : ℚ)⌉ : ℤ) : ℚ) ∧
        1 ≤ (effectPaginate lines page pageSize).totalPages ∧
        1 ≤ (effectPaginate lines page pageSize).page ∧
        (effectPaginate lines page pageSize).page ≤
          (effectPaginate lines page pageSize).totalPages) :=
  fun lines page ps =>
    ⟨bunPaginate_bounds lines page ps, by
      rw [effectPaginate_eq_bunPaginate]
      exact bunPaginate_bounds lines page ps⟩

/-- C10: the Bun-corpus and Effect-corpus pagination implementations are
extensionally equal functions of the cached line sequence and the
requested page and pageSize — identical `{content, page, totalPages}`. -/
theorem c10_bun_effect_pagination_extensionally_equal :
    ∀ (lines : List (List Char)) (page pageSize : Option ℚ),
      effectPaginate lines page pageSize = bunPaginate lines page pageSize :=
  effectPaginate_eq_bunPaginate

theorem staticStep_length (fetch : List Char → Option (List Char))
    (kind : List Char) (docs : List DocumentEntry) (entry : StaticItem) :
    (staticStep fetch kind docs entry).length = docs.length + 1 := by
  simp [staticStep, addDoc]

theorem foldl_staticStep_length (fetch : List Char → Option (List Char))
    (kind : List Char) :
    ∀ (items : List StaticItem) (docs : List DocumentEntry),
      (items.foldl (staticStep fetch kind) docs).length =
        docs.length + items.length := by
  intro items
  induction items with
  | nil => intro docs; simp
  | cons a t ih =>
    intro docs
    rw [List.foldl_cons, ih, staticStep_length]
    simp only [List.length_cons]
    omega

/-- C8 counterexample: a Bun-corpus location whose (already retried)
markdown fetch fails is silently dropped by `loadDocs` — the resulting
store is empty, so no entry with a fallback placeholder body is ever
registered (and the `Effect.catch(() => Effect.succeed(null))` discards
the cause without a diagnostic). -/
theorem c8_counterexample_bun_loader_skips :
    loadBunDocs basenameId mdTrivial fetchNone ["u".data] = [] ∧
    fetchNone ("u".data ++ ".md".data) = none :=
  ⟨rfl, rfl⟩

/-- C8 amended: in the Effect corpus, a failed fetch substitutes the
fallback placeholder body (`fetchText`) and `addStaticDocs` still
registers one entry per item; in the Bun corpus, a failed fetch makes
the loader skip that document (registering nothing for it) while the
remaining documents load exactly as if the failed one were absent. -/
theorem c8_loader_failure_isolation_amended :
    (∀ (fetch : List Char → Option (List Char)) (url kind name : List Char),
        fetch url = none → fetchText fetch url kind name = fallbackBody kind name) ∧
    (∀ (fetch : List Char → Option (List Char)) (kind : List Char)
        (items : List StaticItem),
        (addStaticDocs fetch kind items).length = items.length) ∧
    (∀ (basename : List Char → List Char) (md : List Char → MdFile)
        (fetch : List Char → Option (List Char)) (docs : List DocumentEntry)
        (u : List Char) (rest : List (List Char)),
        fetch (u ++ ".md".data) = none →
        loadBunDocsFrom basename md fetch docs (u :: rest) =
          loadBunDocsFrom basename md fetch docs rest) := by
  refine ⟨?_, ?_, ?_⟩
  · intro fetch url kind name h
    simp [fetchText, h]
  · intro fetch kind items
    rw [addStaticDocs, foldl_staticStep_length]
    simp
  · intro basename md fetch docs u rest h
    simp [loadBunDocsFrom, bunLoadStep, h]

theorem c8_loader_failure_isolation_amended_witness :
    fetchText fetchNone "u".data "guide".data "pkg".data =
        fallbackBody "guide".data "pkg".data ∧
    loadBunDocsFrom basenameId mdTrivial fetchNone [] ["a".data, "b".data] =
      loadBunDocsFrom basenameId mdTrivial fetchNone [] ["b".data] :=
  ⟨c8_loader_failure_isolation_amended.1 fetchNone "u".data "guide".data "pkg".data rfl,
   c8_loader_failure_isolation_amended.2.2 basenameId mdTrivial fetchNone []
     "a".data ["b".data] rfl⟩

theorem bunPaginate_single_page (content : List Char) (p : ℚ)
    (h500 : (splitNl content).length ≤ 500)
    (hp : ((splitNl content).length : ℚ) ≤ p) :
    bunPaginate (splitNl content) (some 1) (some p) =
      { content := content, page := 1, totalPages := 1 } := by
  have hn1 : 1 ≤ (splitNl content).length := one_le_length_splitNl content
  have hfl : ((splitNl content).length : ℤ) ≤ ⌊p⌋ :=
    Int.le_floor.mpr (by exact_mod_cast hp)
  have hsize : ((splitNl content).length : ℤ) ≤ clampPageSize (some p) := by
    unfold clampPageSize
    simp only [Option.getD_some]
    omega
  have hs1 : 1 ≤ clampPageSize (some p) := one_le_clampPageSize _
  have hs0 : (0 : ℚ) < (clampPageSize (some p) : ℚ) := by
    exact_mod_cast lt_of_lt_of_le Int.zero_lt_one hs1
  have hceil :
      ⌈((splitNl content).length : ℚ) / (clampPageSize (some p) : ℚ)⌉ ≤ 1 := by
    rw [Int.ceil_le, Int.cast_one, div_le_one hs0]
    exact_mod_cast hsize
  have hpg :
      (max 1 ⌈((splitNl content).length : ℚ) / (clampPageSize (some p) : ℚ)⌉ : ℤ) = 1 :=
    max_eq_left hceil
  have hslice :
      jsSlice (splitNl content) 0 ((clampPageSize (some p) : ℤ) : ℚ) =
        splitNl content := by
    unfold jsSlice
    rw [show ((0 : ℚ)) = (((0 : ℤ) : ℚ)) by norm_num, ratTrunc_intCast,
      ratTrunc_intCast]
    exact jsSliceI_zero_full _ _ hsize
  simp only [bunPaginate, hpg]
  simp only [Option.getD_some, Int.cast_one, max_self, min_self, sub_self,
    zero_mul, zero_add]
  rw [hslice, joinNl_splitNl]

/-- C9: register a document (≤ 500 lines) and immediately fetch page 1
with a requested pageSize at least the line count: both `get_bun_doc`
and the Effect pagination return the ingested text unchanged
(`split`-then-`join` is the identity), on a single page of one. -/
theorem c9_register_then_get_roundtrip :
    ∀ (content : List Char) (p : ℚ) (title : List Char)
      (description : Option (List Char)) (preview : List Char)
      (headings : List Heading),
      (splitNl content).length ≤ 500 →
      ((splitNl content).length : ℚ) ≤ p →
      getBunDocF (addDoc [] title description preview headings content) 0
          (some 1) (some p) =
        Except.ok { content := content, page := 1, totalPages := 1 } ∧
      effectPaginate (splitNl content) (some 1) (some p) =
        { content := content, page := 1, totalPages := 1 } := by
  intro content p title description preview headings h500 hp
  have hb := bunPaginate_single_page content p h500 hp
  constructor
  · have hdl : docsLookup (addDoc [] title description preview headings content) 0 =
        some { id := 0, title := title, description := description,
               preview := preview, headings := headings, content := content } := rfl
    simp only [getBunDocF, cacheLookup, hdl]
    rw [hb]
  · rw [effectPaginate_eq_bunPaginate, hb]

theorem c9_register_then_get_roundtrip_witness :
    getBunDocF (addDoc [] "t".data none [] [] "a\nb".data) 0 (some 1) (some 2) =
        Except.ok { content := "a\nb".data, page := 1, totalPages := 1 } ∧
    effectPaginate (splitNl "a\nb".data) (some 1) (some 2) =
        { content := "a\nb".data, page := 1, totalPages := 1 } :=
  c9_register_then_get_roundtrip "a\nb".data 2 "t".data none [] []
    (by decide) (by decide)

theorem clamp_raise_eq (e0 s pages : ℤ) (h1 : 1 ≤ s) (h2 : s ≤ pages) :
    min (max e0 s) pages = max (min (max e0 1) pages) s := by
  omega

/-- C5 counterexample: a located section whose matched heading claims
line 5 in a 3-line document.  `get_bun_doc_section` returns `fromLine =
5`, `toLine = 3`: the returned bounds violate the claimed chain
`1 ≤ fromLine ≤ toLine ≤ totalLines` (5 ≤ 3 is false), because
`fromLine` is only clamped from below and `toLine` only from above. -/
theorem c5_counterexample_fromLine_exceeds_toLine :
    (getBunDocSectionF c5Docs 0 "main".data none none).map
        (fun p => (p.fromLine, p.toLine)) = Except.ok ((5 : ℤ), (3 : ℤ)) ∧
    ¬((1 : ℤ) ≤ 5 ∧ (5 : ℤ) ≤ 3 ∧ (3 : ℤ) ≤ 3) := by
  exact ⟨rfl, by decide⟩

/-- C5 amended: `fromLine = max 1 startLine` (clamped from below only)
and `toLine = min totalLines (endLine or totalLines)` (clamped from
above only), so `1 ≤ fromLine` and `toLine ≤ totalLines` always hold,
and `fromLine ≤ toLine` holds whenever the located bounds lie inside the
document; the page mapping is as claimed: `pageStart =
min (max ⌈fromLine/pageSize⌉ 1) totalPages`, `pageEnd =
min (max ⌈toLine/pageSize⌉ pageStart) totalPages`, with
`1 ≤ pageStart ≤ pageEnd ≤ totalPages`. -/
theorem c5_section_bounds_amended :
    ∀ (lines : List (List Char)) (s : ℤ) (e : Option ℤ) (ps : Option ℚ),
      (sectionCore lines s e ps).fromLine = max 1 s ∧
      (sectionCore lines s e ps).toLine =
          min (lines.length : ℤ) (e.getD (lines.length : ℤ)) ∧
      1 ≤ (sectionCore lines s e ps).fromLine ∧
      (sectionCore lines s e ps).toLine ≤ (lines.length : ℤ) ∧
      (sectionCore lines s e ps).pageStart =
          min (max ⌈((sectionCore lines s e ps).fromLine : ℚ) /
              (clampPageSize ps : ℚ)⌉ 1) (sectionCore lines s e ps).totalPages ∧
      (sectionCore lines s e ps).pageEnd =
          min (max ⌈((sectionCore lines s e ps).toLine : ℚ) /
              (clampPageSize ps : ℚ)⌉ (sectionCore lines s e ps).pageStart)
            (sectionCore lines s e ps).totalPages ∧
      1 ≤ (sectionCore lines s e ps).pageStart ∧
      (sectionCore lines s e ps).pageStart ≤ (sectionCore lines s e ps).pageEnd ∧
      (sectionCore lines s e ps).pageEnd ≤ (sectionCore lines s e ps).totalPages ∧
      ((1 ≤ (sectionCore lines s e ps).toLine ∧
          s ≤ (sectionCore lines s e ps).toLine) →
        (sectionCore lines s e ps).fromLine ≤ (sectionCore lines s e ps).toLine) := by
  intro lines s e ps
  have hpg : (1 : ℤ) ≤ max 1 ⌈(lines.length : ℚ) / (clampPageSize ps : ℚ)⌉ :=
    le_max_left _ _
  refine ⟨rfl, ?_, le_max_left _ _, min_le_left _ _, rfl, rfl, ?_, ?_,
    min_le_right _ _, ?_⟩
  · cases e <;> rfl
  · exact le_min (le_max_right _ _) hpg
  · exact le_min (le_max_right _ _) (min_le_right _ _)
  · intro h
    exact max_le h.1 h.2

theorem c5_section_bounds_amended_witness :
    (sectionCore (splitNl "a\nb\nc".data) 1 (some 2) none).fromLine ≤
      (sectionCore (splitNl "a\nb\nc".data) 1 (some 2) none).toLine :=
  (c5_section_bounds_amended (splitNl "a\nb\nc".data) 1 (some 2)
      none).2.2.2.2.2.2.2.2.2 ⟨by decide, by decide⟩

/-- C7 counterexample: with a supplied `depth` of 0 the claim demands an
empty eligible set (no heading has depth 0) and hence `NotFound`; but
`depth ? hs.filter(...) : hs` treats 0 as falsy, so the locator matches
the depth-1 heading anyway. -/
theorem c7_counterexample_depth_zero_truthiness :
    findSectionRange [⟨1, "Main".data, 1⟩] "main".data (some 0) = some (1, none) ∧
    ([⟨1, "Main".data, 1⟩] : List Heading).filter (fun h => h.depth == (0 : ℤ)) = [] :=
  ⟨rfl, rfl⟩

/-- C7 amended: the locator normalizes query and heading text by
lower-casing, deleting exactly the fixed punctuation set, and trimming;
for a supplied nonzero depth the eligible headings are exactly those at
that depth and the first eligible normalized-substring match (document
order, no fuzzy scoring) wins, with `NotFound` iff no eligible heading
matches; a supplied depth of 0, however, is treated as absent (all
headings eligible) by JS truthiness. -/
theorem c7_section_matching_amended :
    (∀ s : List Char,
        normText s =
          trimText ((s.map Char.toLower).filter fun c => !(punctChars.contains c))) ∧
    (∀ (hs : List Heading) (q : List Char) (d : Option ℤ), d ≠ some 0 →
        ((findSectionRange hs q d = none ↔
            (eligibleSpec hs d).find?
              (fun h => hasSub (normText q) (normText h.text)) = none) ∧
          ∀ (s : ℤ) (e : Option ℤ), findSectionRange hs q d = some (s, e) →
            ∃ m, (eligibleSpec hs d).find?
                (fun h => hasSub (normText q) (normText h.text)) = some m ∧
              s = m.line)) ∧
    (∀ (hs : List Heading) (q : List Char),
        findSectionRange hs q (some 0) = findSectionRange hs q none) := by
  refine ⟨fun s => rfl, ?_, ?_⟩
  · intro hs q d hd
    have helig : eligible hs d = eligibleSpec hs d := by
      cases d with
      | none => rfl
      | some dd =>
        have hdd : dd ≠ 0 := fun h => hd (by rw [h])
        simp [eligible, eligibleSpec, hdd]
    constructor
    · simp only [findSectionRange, helig]
      rcases hf : (eligibleSpec hs d).find?
          (fun h => hasSub (normText q) (normText h.text)) with _ | m <;> simp [hf]
    · intro s e hse
      simp only [findSectionRange, helig] at hse
      rcases hf : (eligibleSpec hs d).find?
          (fun h => hasSub (normText q) (normText h.text)) with _ | m
      · rw [hf] at hse; simp at hse
      · rw [hf] at hse
        simp only [Option.some.injEq, Prod.mk.injEq] at hse
        exact ⟨m, hf, hse.1.symm⟩
  · intro hs q
    have helig0 : eligible hs (some 0) = eligible hs none := by simp [eligible]
    simp only [findSectionRange, helig0]

theorem c7_section_matching_amended_witness :
    findSectionRange exOutline "intro".data (some 2) = none ↔
      (eligibleSpec exOutline (some 2)).find?
        (fun h => hasSub (normText "intro".data) (normText h.text)) = none :=
  (c7_section_matching_amended.2.1 exOutline "intro".data (some 2) (by decide)).1

theorem eligible_mem_of (hs : List Heading) (d : Option ℤ) :
    ∀ m ∈ eligible hs d, m ∈ hs := by
  intro m hm
  cases d with
  | none => exact hm
  | some dd =>
    by_cases h0 : dd = 0
    · simpa [eligible, h0] using hm
    · simp only [eligible, if_neg h0] at hm
      exact List.mem_of_mem_filter hm

theorem findIdx_lineEq_of_pairwise (hs : List Heading) (m : Heading) (i : ℕ)
    (hpw : List.Pairwise (fun a b : Heading => a.line < b.line) hs)
    (hi : i < hs.length) (him : hs[i] = m) :
    (hs.findIdx fun h => h.line == m.line) = i := by
  rw [List.findIdx_eq hi]
  refine ⟨by rw [him]; exact beq_self_eq_true _, ?_⟩
  intro j hji
  have hlt := List.pairwise_iff_getElem.mp hpw j i (lt_trans hji hi) hi hji
  rw [him] at hlt
  exact beq_eq_false_iff_ne.mpr (ne_of_lt hlt)

/-- C4: for a heading outline with strictly increasing 1-based line
numbers, whenever the locator matches, the matched heading sits at some
index `i` of the full outline, the section starts at its line, and the
end line is the line immediately before the first later heading (in
full, unfiltered order) of depth at most the matched depth — `none`
(JS `Infinity`) when no such heading exists, in which case the handler
field `toLine` is the last line of the document.  In particular the example outline of the spec with query "intro" yields the span 2–9. -/
theorem c4_section_end_line :
    (∀ (hs : List Heading) (q : List Char) (d : Option ℤ) (s : ℤ) (e : Option ℤ),
        List.Pairwise (fun a b : Heading => a.line < b.line) hs →
        (∀ h ∈ hs, 1 ≤ h.line) →
        findSectionRange hs q d = some (s, e) →
        (∃ i : ℕ, ∃ m : Heading,
            hs[i]? = some m ∧ s = m.line ∧ e = endSpec hs i m) ∧
          ∀ lines : List (List Char), e = none →
            sectionToLine lines e = (lines.length : ℤ)) ∧
    findSectionRange exOutline "intro".data none = some (2, some 9) := by
  constructor
  · intro hs q d s e hpw _hbase hfind
    constructor
    · simp only [findSectionRange] at hfind
      rcases hf : (eligible hs d).find?
          (fun h => hasSub (normText q) (normText h.text)) with _ | m
      · rw [hf] at hfind; simp at hfind
      · rw [hf] at hfind
        simp only [Option.some.injEq, Prod.mk.injEq] at hfind
        obtain ⟨hsm, hem⟩ := hfind
        have hmem : m ∈ hs :=
          eligible_mem_of hs d m (List.mem_of_find?_eq_some hf)
        obtain ⟨i, hi⟩ := List.getElem?_of_mem hmem
        obtain ⟨hilt, him⟩ := List.getElem?_eq_some.mp hi
        have hidx := findIdx_lineEq_of_pairwise hs m i hpw hilt him
        refine ⟨i, m, hi, hsm.symm, ?_⟩
        rw [← hem, hidx]
        rcases hscan : (hs.drop (i + 1)).find?
            (fun h => decide (h.depth ≤ m.depth)) with _ | nx
        · simp [endSpec, hscan]
        · simp [endSpec, hscan]
    · intro lines he
      rw [he]
      simp [sectionToLine]
  · rfl

theorem c4_section_end_line_witness :
    ∃ i : ℕ, ∃ m : Heading,
      exOutline[i]? = some m ∧ (2 : ℤ) = m.line ∧
        (some 9 : Option ℤ) = endSpec exOutline i m :=
  ((c4_section_end_line.1 exOutline "intro".data none 2 (some 9)
      (by decide) (by decide) c4_section_end_line.2).1)

/-- C6: `get_bun_doc_pages` clamps `startPage` into `[1, totalPages]`,
defaults `endPage` to the requested `startPage` and clamps it
independently into `[1, totalPages]` raised to be at least the clamped
start, and returns exactly the cached lines of the slice
`[(startPage-1)·pageSize, endPage·pageSize)` (clamped page numbers,
effective page size) joined with newlines, together with those clamped
page numbers and the total. -/
theorem c6_pages_range_clamping :
    ∀ (lines : List (List Char)) (sp : ℤ) (ep : Option ℤ) (ps : Option ℚ),
      (pagesCore lines (sp : ℚ) (ep.map fun z => (z : ℚ)) ps).startPage =
          ((startPageSpec lines sp ps : ℤ) : ℚ) ∧
      (pagesCore lines (sp : ℚ) (ep.map fun z => (z : ℚ)) ps).endPage =
          ((endPageSpec lines sp ep ps : ℤ) : ℚ) ∧
      (pagesCore lines (sp : ℚ) (ep.map fun z => (z : ℚ)) ps).totalPages =
          ((pagesTotalSpec lines ps : ℤ) : ℚ) ∧
      (pagesCore lines (sp : ℚ) (ep.map fun z => (z : ℚ)) ps).content =
          joinNl ((lines.drop
              (((startPageSpec lines sp ps - 1) * clampPageSize ps).toNat)).take
            ((endPageSpec lines sp ep ps * clampPageSize ps).toNat -
              ((startPageSpec lines sp ps - 1) * clampPageSize ps).toNat)) := by
  intro lines sp ep ps
  have hE : ((ep.map fun z => (z : ℚ)).getD ((sp : ℤ) : ℚ)) =
      ((ep.getD sp : ℤ) : ℚ) := by
    cases ep <;> simp
  have hP : max 1 ⌈(lines.length : ℚ) / (clampPageSize ps : ℚ)⌉ =
      pagesTotalSpec lines ps := rfl
  have h1S : (1 : ℤ) ≤ startPageSpec lines sp ps :=
    le_min (le_max_right _ _) (le_max_left _ _)
  have hSP : startPageSpec lines sp ps ≤ pagesTotalSpec lines ps :=
    min_le_right _ _
  have hsize1 : (1 : ℤ) ≤ clampPageSize ps := one_le_clampPageSize ps
  have hSE : startPageSpec lines sp ps ≤ endPageSpec lines sp ep ps :=
    le_max_right _ _
  have h1E : (1 : ℤ) ≤ endPageSpec lines sp ep ps := le_trans h1S hSE
  have hS : min (max ((sp : ℤ) : ℚ) 1) ((pagesTotalSpec lines ps : ℤ) : ℚ) =
      ((startPageSpec lines sp ps : ℤ) : ℚ) := by
    simp only [startPageSpec]
    rw [intCast_min, intCast_max, Int.cast_one]
  have hEq : min (max ((ep.getD sp : ℤ) : ℚ) ((startPageSpec lines sp ps : ℤ) : ℚ))
      ((pagesTotalSpec lines ps : ℤ) : ℚ) =
      ((endPageSpec lines sp ep ps : ℤ) : ℚ) := by
    simp only [endPageSpec]
    rw [← clamp_raise_eq (ep.getD sp) (startPageSpec lines sp ps)
        (pagesTotalSpec lines ps) h1S hSP, intCast_min, intCast_max]
  refine ⟨?_, ?_, ?_, ?_⟩
  · simp only [pagesCore, hP, hS]
  · simp only [pagesCore, hE, hP, hS, hEq]
  · simp only [pagesCore, hP]
  · simp only [pagesCore, hE, hP, hS, hEq]
    have hsub : ((startPageSpec lines sp ps : ℤ) : ℚ) - 1 =
        (((startPageSpec lines sp ps - 1) : ℤ) : ℚ) := by push_cast; ring
    rw [hsub, ← Int.cast_mul, ← Int.cast_mul]
    simp only [jsSlice]
    rw [ratTrunc_intCast, ratTrunc_intCast]
    rw [jsSliceI_of_nonneg _ _ _ (mul_nonneg (by omega) (by omega))
      (mul_nonneg (by omega) (by omega))]
